import Mathlib

/-!
# Verification of the channel_viz transaction-choreography code

A shallow embedding of the keyframe-emitting animation code of the
`channel_viz` repository (`blender_channel_scene.py` and
`blender_channel_scene_backup_nophysics.py`).  Every animated Blender
property write (`keyframe_insert`) is modelled as an explicit event
`KeyEvent` carrying the frame index and the value written; each
animation function is translated into a pure Lean function returning
the ordered list of events it emits.  Python's global `random` module
is modelled as an explicit state: a stream of unit draws together with
a position, with `random.seed` replacing the state and
`random.uniform a b` consuming one draw.
-/

/-- A 3-vector of rational coordinates (Blender `location` / `scale` values). -/
structure Vec3 where
  x : Rat
  y : Rat
  z : Rat
deriving DecidableEq, Repr

/-- The value written by one `keyframe_insert` call: the animated
properties touched by the repository are `location`, `scale`, the rigid
body `kinematic` flag, `hide_render` and `hide_viewport`. -/
inductive KeyVal where
  | loc (v : Vec3)
  | scl (v : Vec3)
  | kin (b : Bool)
  | hideR (b : Bool)
  | hideV (b : Bool)
deriving DecidableEq, Repr

/-- One keyframe insertion: the frame it is placed at and the value written. -/
structure KeyEvent where
  frame : Int
  val : KeyVal
deriving DecidableEq, Repr

def KeyVal.isLoc : KeyVal → Bool
  | .loc _ => true
  | _ => false

def KeyVal.isScl : KeyVal → Bool
  | .scl _ => true
  | _ => false

def KeyVal.isKin : KeyVal → Bool
  | .kin _ => true
  | _ => false

def KeyVal.isHideR : KeyVal → Bool
  | .hideR _ => true
  | _ => false

def KeyVal.isHideV : KeyVal → Bool
  | .hideV _ => true
  | _ => false

/-- Frames of the events that keyframe the property selected by `p`. -/
def framesP (p : KeyVal → Bool) (es : List KeyEvent) : List Int :=
  (es.filter (fun e => p e.val)).map (fun e => e.frame)

def locFrames : List KeyEvent → List Int := framesP KeyVal.isLoc
def sclFrames : List KeyEvent → List Int := framesP KeyVal.isScl
def kinFrames : List KeyEvent → List Int := framesP KeyVal.isKin
def hideRFrames : List KeyEvent → List Int := framesP KeyVal.isHideR
def hideVFrames : List KeyEvent → List Int := framesP KeyVal.isHideV

/-- The kinematic-flag keyframes of an event list, in emission order. -/
def kinEvents (es : List KeyEvent) : List KeyEvent :=
  es.filter (fun e => e.val.isKin)

/-- The location keyframes of an event list, in emission order. -/
def locEvents (es : List KeyEvent) : List KeyEvent :=
  es.filter (fun e => e.val.isLoc)

/-- Function `get_slot_offset` from `blender_channel_scene_backup_nophysics.py`
(lines 313-316): `offsets = [-0.9, -0.3, 0.3, 0.9]; return
offsets[slot_index % max_slots]`.  Python list indexing is fallible, so
the lookup is returned as an `Option`; Python's `%` on a positive
modulus agrees with `Int.emod`. -/
def get_slot_offset (slot_index : Int) (max_slots : Int := 4) : Option Rat :=
  [(-9/10 : Rat), -3/10, 3/10, 9/10].get? ((slot_index % max_slots).toNat)

/-- Claim C10: the slot-offset function is total on every integer slot index
(the index is reduced modulo the number of slots before indexing, so the
lookup never falls out of range) and always returns one of the four
values -0.9, -0.3, 0.3, 0.9; hence every ball's lateral offset within a
unit is bounded by 0.9 in absolute value. -/
theorem c10_slot_offset_total (i : Int) :
    ∃ v : Rat, get_slot_offset i = some v ∧
      (v = -9/10 ∨ v = -3/10 ∨ v = 3/10 ∨ v = 9/10) ∧ |v| ≤ 9/10 := by
  have h : i % 4 = 0 ∨ i % 4 = 1 ∨ i % 4 = 2 ∨ i % 4 = 3 := by omega
  rcases h with h | h | h | h
  · exact ⟨-9/10, by simp [get_slot_offset, h], by norm_num, by norm_num [abs_le]⟩
  · exact ⟨-3/10, by simp [get_slot_offset, h], by norm_num, by norm_num [abs_le]⟩
  · exact ⟨3/10, by simp [get_slot_offset, h], by norm_num, by norm_num [abs_le]⟩
  · exact ⟨9/10, by simp [get_slot_offset, h], by norm_num, by norm_num [abs_le]⟩

/-- Function `animate_ball` from `blender_channel_scene_backup_nophysics.py`
(lines 232-250): keyframe `location` at each waypoint in turn, advancing
the frame counter by `frames_per_stop` after each keyframe.  No other
property is ever keyframed. -/
def animate_ball : List Vec3 → Int → Int → List KeyEvent
  | [], _, _ => []
  | pos :: rest, frame, frames_per_stop =>
    ⟨frame, .loc pos⟩ :: animate_ball rest (frame + frames_per_stop) frames_per_stop

/-- Waypoints of write transaction `i` in `create_scene`
(backup file, lines 325-330), given its slot offset `xo`:
Enter, WCache, Write RS, DRAM (left side). -/
def writeWaypoints (xo : Rat) : List Vec3 :=
  [⟨0 + xo, 1/2, 12⟩, ⟨0 + xo, 1/2, 6⟩, ⟨-4 + xo, 1/2, 2⟩, ⟨0 - 3/2 + xo, 1/2, -3⟩]

/-- Waypoints of read transaction `i` in `create_scene`
(backup file, lines 343-349): Enter, Read RS, DRAM (right side),
Read Return, Exit. -/
def readWaypoints (xo : Rat) : List Vec3 :=
  [⟨4 + xo, 1/2, 12⟩, ⟨4 + xo, 1/2, 2⟩, ⟨0 + 3/2 + xo, 1/2, -3⟩,
   ⟨8 + xo, 1/2, -3⟩, ⟨8 + xo, 1/2, 12⟩]

/-- The per-entity timelines produced by `create_scene` in the no-physics
variant (backup file, lines 285-358): 6 write balls animated with
`start = 1 + i*25`, `frames_per_stop = 40`, then 6 read balls with
`start = 10 + i*30`, `frames_per_stop = 45`; each ball's slot offset is
`get_slot_offset(i % 4)` (defaulting to 0 on a failed lookup, which
never occurs). -/
def create_scene_timelines : List (List KeyEvent) :=
  (List.range 6).map (fun i =>
    animate_ball (writeWaypoints ((get_slot_offset ((i : Int) % 4)).getD 0))
      (1 + 25 * (i : Int)) 40)
  ++ (List.range 6).map (fun i =>
    animate_ball (readWaypoints ((get_slot_offset ((i : Int) % 4)).getD 0))
      (10 + 30 * (i : Int)) 45)

/-- Adjacent-frame check: every consecutive pair of frames is strictly
increasing and at most `bound` frames apart. -/
def framesAdjOk (bound : Int) : List Int → Bool
  | a :: b :: r =>
    decide (a < b) && decide (b - a ≤ bound) && framesAdjOk bound (b :: r)
  | _ => true

/-- Claim C4: in the variant with no physics collaborator, synthesis still
completes for every entity (all 12 timelines are produced and each is
nonempty) and every sample of every timeline is a pure keyframed
location sample (SCRIPTED): there are no kinematic cede/resume toggles,
and there are no gaps — consecutive keyframes are strictly increasing
and at most the configured 45-frame stop interval apart. -/
theorem c4_graceful_degradation :
    create_scene_timelines.length = 12 ∧
    ∀ tl ∈ create_scene_timelines,
      0 < tl.length ∧ (∀ e ∈ tl, e.val.isLoc = true) ∧
        framesAdjOk 45 (tl.map (fun e => e.frame)) = true := by
  decide

/-- Constant `int(bounce_frames * 0.4)` from `animate_transaction`
(`blender_channel_scene.py` line 798), with `bounce_frames = 8`:
Python truncates `3.2` to `3`; on nonnegative values `int` truncation
is integer division. -/
def squashAdv : Int := (8 * 4) / 10

/-- Constant `int(bounce_frames * 0.6)` from `animate_transaction` (line 805):
Python truncates `4.8` to `4`. -/
def settleAdv : Int := (8 * 6) / 10

/-- The first-waypoint events of `animate_transaction` (lines 811-815):
just set position and unit scale at the current frame. -/
def atFirstSet (pos : Vec3) (cf : Int) : List KeyEvent :=
  [⟨cf, .loc pos⟩, ⟨cf, .scl ⟨1, 1, 1⟩⟩]

/-- The arrival embellishment of `animate_transaction` (lines 788-809):
squash (scale `(1.15, 0.7, 1.15)`, position dipped `0.15` below the
target) at the arrival frame, stretch (scale `(0.85, 1.25, 0.85)`,
overshoot `0.1` above) `int(8*0.4)` frames later, settle (unit scale,
exact target position) `int(8*0.6)` further frames later. -/
def atArrive (pos : Vec3) (cf : Int) : List KeyEvent :=
  [⟨cf, .loc ⟨pos.x, pos.y - 3/20, pos.z⟩⟩,
   ⟨cf, .scl ⟨23/20, 7/10, 23/20⟩⟩,
   ⟨cf + squashAdv, .loc ⟨pos.x, pos.y + 1/10, pos.z⟩⟩,
   ⟨cf + squashAdv, .scl ⟨17/20, 5/4, 17/20⟩⟩,
   ⟨cf + squashAdv + settleAdv, .loc pos⟩,
   ⟨cf + squashAdv + settleAdv, .scl ⟨1, 1, 1⟩⟩]

/-- The hold events of `animate_transaction` (lines 819-824): re-keyframe
the resting pose after the wait. -/
def atHold (pos : Vec3) (cf : Int) : List KeyEvent :=
  [⟨cf, .loc pos⟩, ⟨cf, .scl ⟨1, 1, 1⟩⟩]

/-- The departure anticipation of `animate_transaction` (lines 826-831):
a single stretched-scale keyframe 3 frames after the hold. -/
def atDepart (cf : Int) : List KeyEvent :=
  [⟨cf, .scl ⟨9/10, 11/10, 9/10⟩⟩]

/-- The waypoint loop of `animate_transaction`
(`blender_channel_scene.py` lines 764-848), as a recursion over the
remaining waypoints.  `waits` tracks the remaining `wait_times`
(`wait_times[i] if i < len(wait_times) else 0` is `waits.headD 0`);
`frames_per_move = 18`. -/
def atRun : List Vec3 → List Int → Bool → Int → List KeyEvent
  | [], _, _, _ => []
  | pos :: rest, waits, isFirst, cf =>
    let arrive := if isFirst then atFirstSet pos cf else atArrive pos cf
    let cf1 := if isFirst then cf else cf + squashAdv + settleAdv
    let w := waits.headD 0
    let hold := if 0 < w then atHold pos (cf1 + w) else []
    let cf2 := if 0 < w then cf1 + w else cf1
    let depart := if rest.isEmpty then [] else atDepart (cf2 + 3)
    let cf3 := if rest.isEmpty then cf2 else cf2 + 3
    arrive ++ hold ++ depart ++ atRun rest waits.tail false (cf3 + 18)

/-- Function `animate_transaction(sphere, waypoints, start_frame, wait_times)`:
the ordered list of keyframe events it inserts. -/
def animate_transaction (waypoints : List Vec3) (start_frame : Int)
    (wait_times : List Int) : List KeyEvent :=
  atRun waypoints wait_times true start_frame

/-- Frame extraction distributes over list append. -/
theorem framesP_append (p : KeyVal → Bool) (a b : List KeyEvent) :
    framesP p (a ++ b) = framesP p a ++ framesP p b := by
  simp [framesP]

/-- Function `animate_transaction` never keyframes the rigid-body kinematic flag:
no event in its output is a kinematic keyframe. -/
theorem atRun_kinFrames (wps : List Vec3) : ∀ (waits : List Int)
    (first : Bool) (cf : Int),
    framesP KeyVal.isKin (atRun wps waits first cf) = [] := by
  induction wps with
  | nil => intro waits first cf; simp [atRun, framesP]
  | cons pos rest ih =>
    intro waits first cf
    simp only [atRun]
    split_ifs <;>
      (simp only [framesP_append, ih]
       simp [framesP, atArrive, atFirstSet, atHold, atDepart, KeyVal.isKin])

/-- Claim C6: for every arrival at a non-first waypoint, the embellishment
is exactly three phases at fixed frame offsets from arrival: squash
(compressed scale `(1.15, 0.7, 1.15)`, position overshot `0.15` past the
target) at the arrival frame, stretch (elongated scale
`(0.85, 1.25, 0.85)`, rebound overshoot `0.1`) `int(8*0.4) = 3` frames
later, and settle `int(8*0.6) = 4` more frames later with scale exactly
`(1,1,1)` and position exactly the target waypoint — a bounded 7-frame
window — and `animate_transaction` never inserts a kinematic keyframe,
so the embellishment never changes the control mode. -/
theorem c6_embellishment (pos : Vec3) (cf : Int) :
    squashAdv = 3 ∧ settleAdv = 4 ∧
    atArrive pos cf =
      [⟨cf, .loc ⟨pos.x, pos.y - 3/20, pos.z⟩⟩,
       ⟨cf, .scl ⟨23/20, 7/10, 23/20⟩⟩,
       ⟨cf + 3, .loc ⟨pos.x, pos.y + 1/10, pos.z⟩⟩,
       ⟨cf + 3, .scl ⟨17/20, 5/4, 17/20⟩⟩,
       ⟨cf + 7, .loc pos⟩,
       ⟨cf + 7, .scl ⟨1, 1, 1⟩⟩] ∧
    ∀ (wps : List Vec3) (sf : Int) (w : List Int),
      kinFrames (animate_transaction wps sf w) = [] := by
  have h1 : squashAdv = 3 := by decide
  have h2 : settleAdv = 4 := by decide
  refine ⟨h1, h2, ?_, ?_⟩
  · simp only [atArrive, h1, h2]
    norm_num
    omega
  · intro wps sf w
    simpa [kinFrames] using atRun_kinFrames wps w true sf

/-- The value returned by `random.uniform(a, b)` for a unit draw `r`:
CPython computes `a + (b - a) * random()`. -/
def uniformVal (a b r : Rat) : Rat := a + (b - a) * r

/-- The arrival part of one stop of `create_hybrid_transaction`
(`blender_channel_scene.py` lines 889-905): keyframe kinematic-true and
the jittered entry position above the container at the current frame,
then kinematic-false 2 frames later (cede control to physics).  The two
jitters consume the draws at stream positions `t` and `t + 1`. -/
def hybridArrive (pos : Vec3) (u : Nat → Rat) (t : Nat) (cf : Int) :
    List KeyEvent :=
  [⟨cf, .kin true⟩,
   ⟨cf, .loc ⟨pos.x + uniformVal (-3/10) (3/10) (u t), pos.y + 5/2,
              pos.z + uniformVal (-1/5) (1/5) (u (t + 1))⟩⟩,
   ⟨cf + 2, .kin false⟩]

/-- The non-terminal departure of `create_hybrid_transaction`
(lines 908-933): resume kinematic control at the nominal pickup position
(`pickup_y = pos[1] - 1.0`, near the bottom of the container), rise out
of the container 8 frames later, and arc at height 6 towards the next
container (`travel_frames // 2 = 9` frames each half). -/
def departBlock (pos nxt : Vec3) (cf : Int) : List KeyEvent :=
  [⟨cf, .kin true⟩,
   ⟨cf, .loc ⟨pos.x, pos.y - 1, pos.z⟩⟩,
   ⟨cf + 8, .loc ⟨pos.x, pos.y + 3, pos.z⟩⟩,
   ⟨cf + 8 + 9, .loc ⟨(pos.x + nxt.x) / 2, 6, (pos.z + nxt.z) / 2⟩⟩]

/-- The terminal exit of `create_hybrid_transaction` (lines 934-943):
resume kinematic control at the container centre and exit upward and
forward 15 frames later; the loop then ends. -/
def terminalBlock (pos : Vec3) (cf : Int) : List KeyEvent :=
  [⟨cf, .kin true⟩, ⟨cf, .loc pos⟩,
   ⟨cf + 15, .loc ⟨pos.x, pos.y + 6, pos.z + 5⟩⟩]

/-- One iteration of the stop loop of `create_hybrid_transaction`:
arrival plus a physics dwell of `pt` frames, then either the departure
towards `nxt` (`next? = some nxt`) or the terminal exit
(`next? = none`, i.e. `is_last`). -/
def hybridVisit (pos : Vec3) (next? : Option Vec3) (pt : Int)
    (u : Nat → Rat) (t : Nat) (cf : Int) : List KeyEvent :=
  hybridArrive pos u t cf ++
    match next? with
    | some nxt => departBlock pos nxt (cf + 2 + pt)
    | none => terminalBlock pos (cf + 2 + pt)

/-- The per-stop event blocks of the loop of `create_hybrid_transaction`
(lines 886-943): one block per path point.  `pf` tracks the remaining
`physics_frames` (`physics_frames[i] if i < len(physics_frames) else 50`
is `pf.headD 50`); after a non-terminal stop the loop resumes 8+9+9
frames after the dwell ends, having consumed two more draws. -/
def hybridBlocks : List Vec3 → List Int → (Nat → Rat) → Nat → Int →
    List (List KeyEvent)
  | [], _, _, _, _ => []
  | pos :: rest, pf, u, t, cf =>
    let pt := pf.headD 50
    hybridVisit pos rest.head? pt u t cf ::
      hybridBlocks rest pf.tail u (t + 2) (cf + 2 + pt + 8 + 9 + 9)

/-- The hide keyframes at the start of `create_hybrid_transaction`
(lines 871-881): hidden one frame before spawn, visible at spawn. -/
def hybridPrelude (sf : Int) : List KeyEvent :=
  [⟨sf - 1, .hideR true⟩, ⟨sf - 1, .hideV true⟩,
   ⟨sf, .hideR false⟩, ⟨sf, .hideV false⟩]

/-- Function `create_hybrid_transaction(name, color, path_points, spawn_frame,
physics_frames)` (lines 857-954): all keyframe events it inserts, in
order; the RNG stream `u` is consumed from position 0. -/
def create_hybrid_transaction (path_points : List Vec3) (spawn_frame : Int)
    (physics_frames : List Int) (u : Nat → Rat) : List KeyEvent :=
  hybridPrelude spawn_frame ++
    (hybridBlocks path_points physics_frames u 0 spawn_frame).flatten

/-- The physics dwell used at stop `k`: `physics_frames[k]` when defined,
else the default 50. -/
def hybridPtAt (pf : List Int) (k : Nat) : Int := (pf.drop k).headD 50

/-- The (stream position, current frame) state of the stop loop after
`k` non-terminal stops, where `k` is the length of the first argument. -/
def hybridStateAfter : List Vec3 → List Int → Nat → Int → Nat × Int
  | [], _, t, cf => (t, cf)
  | _ :: rest, pf, t, cf =>
    hybridStateAfter rest pf.tail (t + 2) (cf + 2 + pf.headD 50 + 8 + 9 + 9)

/-- The stop loop emits exactly one block per path point. -/
theorem hybridBlocks_length (ps : List Vec3) : ∀ (pf : List Int)
    (u : Nat → Rat) (t : Nat) (cf : Int),
    (hybridBlocks ps pf u t cf).length = ps.length := by
  induction ps with
  | nil => intro pf u t cf; simp [hybridBlocks]
  | cons p rest ih => intro pf u t cf; simp [hybridBlocks, ih]

/-- The last block of the stop loop over `ps ++ [q]` is the terminal
visit of `q`, entered in the state reached after the `ps` stops. -/
theorem hybridBlocks_getLast (ps : List Vec3) : ∀ (q : Vec3)
    (pf : List Int) (u : Nat → Rat) (t : Nat) (cf : Int),
    (hybridBlocks (ps ++ [q]) pf u t cf).getLast?
      = some (hybridVisit q none (hybridPtAt pf ps.length) u
          (hybridStateAfter ps pf t cf).1 (hybridStateAfter ps pf t cf).2) := by
  induction ps with
  | nil =>
    intro q pf u t cf
    simp [hybridBlocks, hybridPtAt, hybridStateAfter]
  | cons p rest ih =>
    intro q pf u t cf
    rw [show (p :: rest) ++ [q] = p :: (rest ++ [q]) by simp]
    simp only [hybridBlocks]
    rcases h : hybridBlocks (rest ++ [q]) pf.tail u (t + 2)
        (cf + 2 + pf.headD 50 + 8 + 9 + 9) with _ | ⟨b, bs⟩
    · exfalso
      have hlen := hybridBlocks_length (rest ++ [q]) pf.tail u (t + 2)
        (cf + 2 + pf.headD 50 + 8 + 9 + 9)
      rw [h] at hlen
      simp at hlen
    · rw [List.getLast?_cons_cons, ← h, ih]
      simp [hybridPtAt, hybridStateAfter, List.tail_drop, List.drop_drop]

/-- Claim C7: the handoff loop of `create_hybrid_transaction` runs exactly
once per stage visit (one block per path point, and the output is the
concatenation of those blocks after the spawn prelude, so nothing is
emitted after the last block); at the terminal stage the last block is
the terminal visit, which emits only the arrival/dwell and the terminal
exit — no departure pickup and no travel arc towards a next stage — and
ends the entity's timeline. -/
theorem c7_terminal_visit (ps : List Vec3) (q : Vec3) (pf : List Int)
    (u : Nat → Rat) (sf : Int) :
    create_hybrid_transaction (ps ++ [q]) sf pf u
      = hybridPrelude sf ++ (hybridBlocks (ps ++ [q]) pf u 0 sf).flatten
    ∧ (hybridBlocks (ps ++ [q]) pf u 0 sf).length = ps.length + 1
    ∧ (hybridBlocks (ps ++ [q]) pf u 0 sf).getLast?
        = some (hybridVisit q none (hybridPtAt pf ps.length) u
            (hybridStateAfter ps pf 0 sf).1 (hybridStateAfter ps pf 0 sf).2)
    ∧ ∀ (p : Vec3) (pt : Int) (tt : Nat) (c : Int),
        hybridVisit p none pt u tt c
          = hybridArrive p u tt c ++
            [⟨c + 2 + pt, .kin true⟩, ⟨c + 2 + pt, .loc p⟩,
             ⟨c + 2 + pt + 15, .loc ⟨p.x, p.y + 6, p.z + 5⟩⟩] := by
  refine ⟨rfl, ?_, hybridBlocks_getLast ps q pf u 0 sf, fun p pt tt c => rfl⟩
  simp [hybridBlocks_length]

/-- Claim C8: at every non-terminal stage visit of a hybrid entity, when
the engine reclaims control after the physics dwell it emits a single
`kinematic = true` resume sample, and the location keyframed at that
same frame is the stage's nominal resting position: x and z at the
container centre and y exactly 1.0 below the container's centre
height. -/
theorem c8_depart_resume (pos nxt : Vec3) (pt : Int) (u : Nat → Rat)
    (t : Nat) (cf : Int) :
    hybridVisit pos (some nxt) pt u t cf
      = hybridArrive pos u t cf ++ departBlock pos nxt (cf + 2 + pt)
    ∧ kinEvents (departBlock pos nxt (cf + 2 + pt))
        = [⟨cf + 2 + pt, .kin true⟩]
    ∧ (locEvents (departBlock pos nxt (cf + 2 + pt))).head?
        = some ⟨cf + 2 + pt, .loc ⟨pos.x, pos.y - 1, pos.z⟩⟩ := by
  refine ⟨rfl, ?_, ?_⟩ <;>
    simp [kinEvents, locEvents, departBlock, KeyVal.isKin, KeyVal.isLoc]

/-- Function `spawn_physics_ball(name, color_name, location, spawn_frame)`
(`blender_channel_scene.py` lines 957-979): the ball is keyframed
hidden and kinematic (frozen) one frame before spawn, and visible with
physics active (`kinematic = False`) at the spawn frame.  The spawn
`location` is set on the object at creation but is never keyframed, so
no location event is emitted. -/
def spawn_physics_ball (_pos : Vec3) (spawn_frame : Int) : List KeyEvent :=
  [⟨spawn_frame - 1, .hideR true⟩, ⟨spawn_frame - 1, .hideV true⟩,
   ⟨spawn_frame - 1, .kin true⟩,
   ⟨spawn_frame, .hideR false⟩, ⟨spawn_frame, .hideV false⟩,
   ⟨spawn_frame, .kin false⟩]

/-- The value of the first kinematic keyframe placed exactly at frame `f`. -/
def kinAt (es : List KeyEvent) (f : Int) : Option Bool :=
  (es.find? (fun e => e.frame == f && e.val.isKin)).bind
    (fun e => match e.val with
      | .kin b => some b
      | _ => none)

/-- Claim C3, counterexample: for a physics ball spawned at frame 5, the
kinematic flag keyframed at the spawn frame is `false` (physics active,
i.e. SIMULATED), not `true` as the claim states: `spawn_physics_ball`
keyframes `kinematic = true` only at `spawn_frame - 1`. -/
theorem c3_counterexample :
    kinAt (spawn_physics_ball ⟨0, 5, 5⟩ 5) 5 ≠ some true := by decide

/-- Claim C3, amended: the first kinematic keyframe of every entity is
`true` (SCRIPTED): a physics ball is keyframed kinematic-true one frame
before its spawn frame (and kinematic-false at the spawn frame itself),
and a hybrid transaction's first kinematic keyframe, at its spawn frame,
is `true`. -/
theorem c3_first_kin_scripted (pos : Vec3) (sf : Int) (path : List Vec3)
    (pf : List Int) (u : Nat → Rat) (hpath : path ≠ []) :
    (kinEvents (spawn_physics_ball pos sf)).head? = some ⟨sf - 1, .kin true⟩ ∧
    (kinEvents (create_hybrid_transaction path sf pf u)).head?
      = some ⟨sf, .kin true⟩ := by
  constructor
  · simp [kinEvents, spawn_physics_ball, KeyVal.isKin]
  · rcases path with _ | ⟨p, rest⟩
    · exact absurd rfl hpath
    · simp [kinEvents, create_hybrid_transaction, hybridPrelude, hybridBlocks,
        hybridVisit, hybridArrive, KeyVal.isKin]

/-- Claim C3, witness. -/
theorem c3_first_kin_scripted_witness :
    (kinEvents (spawn_physics_ball ⟨0, 5, 5⟩ 7)).head? = some ⟨6, .kin true⟩ ∧
    (kinEvents (create_hybrid_transaction [⟨0, 0, 0⟩] 7 [10]
        (fun _ => 0))).head? = some ⟨7, .kin true⟩ := by
  have h := c3_first_kin_scripted ⟨0, 5, 5⟩ 7 [⟨0, 0, 0⟩] [10] (fun _ => 0)
    (by simp)
  simpa using h

/-- The state of Python's global `random` module: a stream of unit draws
together with the current position in the stream. -/
def Rng : Type := (Nat → Rat) × Nat

/-- Call `random.uniform(a, b)` on the global state: consume one draw. -/
def uniform (a b : Rat) (g : Rng) : Rat × Rng :=
  (uniformVal a b (g.1 g.2), (g.1, g.2 + 1))

/-- Call `random.seed(s)`: replace the global RNG state — whatever it was —
by the stream determined by the seed, at position 0.  `seedFn` is the
seed-to-stream map of the underlying generator (the embedding of the
Mersenne Twister). -/
def seedRng (seedFn : Nat → Nat → Rat) (s : Nat) : Rng → Rng :=
  fun _ => (seedFn s, 0)

/-- One spawned transaction ball of `create_channel_scene`: its loop
index (entity id), category, jittered spawn position, spawn frame, and
the keyframe events inserted by `spawn_physics_ball`. -/
structure Ball where
  id : Nat
  isWrite : Bool
  pos : Vec3
  spawnFrame : Int
  events : List KeyEvent
deriving DecidableEq, Repr

/-- The write ball for loop index `i` (`blender_channel_scene.py` lines
1082-1087), given its three uniform draw values: spawn above WCache
`(0, 5, 5)` jittered by `(U(-1,1), U(0,2), U(-0.3,0.3))`, spawn frame
`1 + i * 30`. -/
def mkWriteBall (i : Nat) (r1 r2 r3 : Rat) : Ball :=
  { id := i, isWrite := true,
    pos := ⟨0 + r1, 5 + r2, 5 + r3⟩,
    spawnFrame := 1 + (i : Int) * 30,
    events := spawn_physics_ball ⟨0 + r1, 5 + r2, 5 + r3⟩ (1 + (i : Int) * 30) }

/-- The read ball for loop index `i` (lines 1090-1095): spawn above
Read RS `(3.5, 5, 1.5)` jittered by `(U(-1,1), U(0,2), U(-0.3,0.3))`,
spawn frame `15 + i * 35`. -/
def mkReadBall (i : Nat) (r1 r2 r3 : Rat) : Ball :=
  { id := i, isWrite := false,
    pos := ⟨7/2 + r1, 5 + r2, 3/2 + r3⟩,
    spawnFrame := 15 + (i : Int) * 35,
    events := spawn_physics_ball ⟨7/2 + r1, 5 + r2, 3/2 + r3⟩
      (15 + (i : Int) * 35) }

/-- The write-ball loop of `create_channel_scene`, generalised to an
arbitrary list of loop indices (the source runs it over `range(8)`):
each ball consumes three draws from the single shared stream, in loop
order. -/
def spawnWriteBalls : List Nat → Rng → List Ball × Rng
  | [], g => ([], g)
  | i :: rest, g =>
    let p1 := uniform (-1) 1 g
    let p2 := uniform 0 2 p1.2
    let p3 := uniform (-3/10) (3/10) p2.2
    let bs := spawnWriteBalls rest p3.2
    (mkWriteBall i p1.1 p2.1 p3.1 :: bs.1, bs.2)

/-- The read-ball loop of `create_channel_scene`, generalised to an
arbitrary list of loop indices. -/
def spawnReadBalls : List Nat → Rng → List Ball × Rng
  | [], g => ([], g)
  | i :: rest, g =>
    let p1 := uniform (-1) 1 g
    let p2 := uniform 0 2 p1.2
    let p3 := uniform (-3/10) (3/10) p2.2
    let bs := spawnReadBalls rest p3.2
    (mkReadBall i p1.1 p2.1 p3.1 :: bs.1, bs.2)

/-- The ball-spawning section of `create_channel_scene` (lines
1074-1095): `random.seed(42)`, then 8 write balls and 8 read balls
spawned in loop order from the single (re-seeded) global stream.  `g0`
is the global RNG state left over from before the run. -/
def create_channel_scene_balls (seedFn : Nat → Nat → Rat) (g0 : Rng) :
    List Ball :=
  let g := seedRng seedFn 42 g0
  let ws := spawnWriteBalls (List.range 8) g
  let rs := spawnReadBalls (List.range 8) ws.2
  ws.1 ++ rs.1

/-- Claim C1: scene synthesis is deterministic under the fixed seed 42:
because `create_channel_scene` reseeds the global RNG before spawning,
two independent runs — starting from arbitrary, possibly different
prior global RNG states `g0` and `g1` but the same underlying generator
`seedFn` — produce identical ball lists: every ball's jittered spawn
position, spawn frame and keyframe events coincide. -/
theorem c1_determinism (seedFn : Nat → Nat → Rat) (g0 g1 : Rng) :
    create_channel_scene_balls seedFn g0
      = create_channel_scene_balls seedFn g1 := rfl

/-- The write-ball loop draws each ball's jitter from the shared stream
at the three consecutive positions determined by the ball's position in
the spawn order: the `k`-th spawned ball uses draws `t + 3k`,
`t + 3k + 1`, `t + 3k + 2`, regardless of its id. -/
theorem spawnWriteBalls_get? (ids : List Nat) : ∀ (u : Nat → Rat) (t k : Nat),
    (spawnWriteBalls ids (u, t)).1.get? k
      = (ids.get? k).map (fun j =>
          mkWriteBall j (uniformVal (-1) 1 (u (t + 3 * k)))
            (uniformVal 0 2 (u (t + 3 * k + 1)))
            (uniformVal (-3/10) (3/10) (u (t + 3 * k + 2)))) := by
  induction ids with
  | nil => intro u t k; simp [spawnWriteBalls]
  | cons i rest ih =>
    intro u t k
    cases k with
    | zero => simp [spawnWriteBalls, uniform]
    | succ k =>
      simp only [spawnWriteBalls, uniform, List.get?]
      rw [ih u (t + 3) k]
      rcases h : rest.get? k with _ | j
      · rfl
      · have e1 : t + 3 + 3 * k = t + 3 * (k + 1) := by ring
        rw [e1]

/-- The read-ball loop draws each ball's jitter from the shared stream
at the three consecutive positions determined by its position in the
spawn order. -/
theorem spawnReadBalls_get? (ids : List Nat) : ∀ (u : Nat → Rat) (t k : Nat),
    (spawnReadBalls ids (u, t)).1.get? k
      = (ids.get? k).map (fun j =>
          mkReadBall j (uniformVal (-1) 1 (u (t + 3 * k)))
            (uniformVal 0 2 (u (t + 3 * k + 1)))
            (uniformVal (-3/10) (3/10) (u (t + 3 * k + 2)))) := by
  induction ids with
  | nil => intro u t k; simp [spawnReadBalls]
  | cons i rest ih =>
    intro u t k
    cases k with
    | zero => simp [spawnReadBalls, uniform]
    | succ k =>
      simp only [spawnReadBalls, uniform, List.get?]
      rw [ih u (t + 3) k]
      rcases h : rest.get? k with _ | j
      · rfl
      · have e1 : t + 3 + 3 * k = t + 3 * (k + 1) := by ring
        rw [e1]

/-- A concrete unit-draw stream used to exhibit cross-entity RNG
interference: `u₀ n = 1 / (n + 2)`, which lies in `(0, 1]`. -/
def u₀ : Nat → Rat := fun n => 1 / ((n : Rat) + 2)

/-- Claim C5, counterexample: the spawn jitter is *not* derived from the
run seed and the entity's id alone: with the shared stream `u₀` (seeded
once for the whole run), write entity 1's jittered spawn position in
the full run (it is the second ball spawned, so it consumes draws
3, 4, 5) differs from its position when entity 0 is removed (it is then
the first ball spawned and consumes draws 0, 1, 2): removing one entity
changes another entity's emitted samples. -/
theorem c5_counterexample :
    (spawnWriteBalls [0, 1, 2, 3, 4, 5, 6, 7] (u₀, 0)).1.get? 1
      ≠ (spawnWriteBalls [1, 2, 3, 4, 5, 6, 7] (u₀, 0)).1.get? 0 := by
  rw [spawnWriteBalls_get?, spawnWriteBalls_get?]
  intro h
  simp only [show ([0, 1, 2, 3, 4, 5, 6, 7] : List Nat).get? 1 = some 1 from rfl,
    show ([1, 2, 3, 4, 5, 6, 7] : List Nat).get? 0 = some 1 from rfl,
    Option.map_some'] at h
  have hx := congrArg (fun b : Ball => b.pos.x) (Option.some.inj h)
  simp only [mkWriteBall] at hx
  norm_num [uniformVal, u₀] at hx

/-- Claim C5, amended: each ball's spawn jitter is drawn from the single
shared seeded stream, at the three consecutive positions determined by
the ball's position in the spawn order — not by its entity id — so
adding, removing or reordering an earlier entity shifts every later
entity's draws. -/
theorem c5_shared_stream (ids : List Nat) (u : Nat → Rat) (t k : Nat) :
    (spawnWriteBalls ids (u, t)).1.get? k
      = (ids.get? k).map (fun j =>
          mkWriteBall j (uniformVal (-1) 1 (u (t + 3 * k)))
            (uniformVal 0 2 (u (t + 3 * k + 1)))
            (uniformVal (-3/10) (3/10) (u (t + 3 * k + 2)))) ∧
    (spawnReadBalls ids (u, t)).1.get? k
      = (ids.get? k).map (fun j =>
          mkReadBall j (uniformVal (-1) 1 (u (t + 3 * k)))
            (uniformVal 0 2 (u (t + 3 * k + 1)))
            (uniformVal (-3/10) (3/10) (u (t + 3 * k + 2)))) :=
  ⟨spawnWriteBalls_get? ids u t k, spawnReadBalls_get? ids u t k⟩

/-- Gluing lemma for the monotonicity inductions: a literal block of
frames lying in `[cf, cn)` followed by a recursively-produced tail
bounded below by `cn` is strictly sorted and bounded below by `cf`. -/
theorem mono_glue (lit rec : List Int) (cf cn : Int) (hcn : cf ≤ cn)
    (hlit : lit.Pairwise (· < ·)) (hlb : ∀ x ∈ lit, cf ≤ x)
    (hub : ∀ x ∈ lit, x < cn)
    (hrecP : rec.Pairwise (· < ·)) (hrecB : ∀ y ∈ rec, cn ≤ y) :
    (lit ++ rec).Pairwise (· < ·) ∧ ∀ f ∈ lit ++ rec, cf ≤ f := by
  constructor
  · exact List.pairwise_append.mpr
      ⟨hlit, hrecP, fun x hx y hy => lt_of_lt_of_le (hub x hx) (hrecB y hy)⟩
  · intro f hf
    rcases List.mem_append.mp hf with h | h
    · exact hlb f h
    · exact le_trans hcn (hrecB f h)

theorem framesP_loc_atArrive (pos : Vec3) (cf : Int) :
    framesP KeyVal.isLoc (atArrive pos cf)
      = [cf, cf + squashAdv, cf + squashAdv + settleAdv] := by
  simp [framesP, atArrive, KeyVal.isLoc]

theorem framesP_scl_atArrive (pos : Vec3) (cf : Int) :
    framesP KeyVal.isScl (atArrive pos cf)
      = [cf, cf + squashAdv, cf + squashAdv + settleAdv] := by
  simp [framesP, atArrive, KeyVal.isScl]

theorem framesP_loc_atFirstSet (pos : Vec3) (cf : Int) :
    framesP KeyVal.isLoc (atFirstSet pos cf) = [cf] := by
  simp [framesP, atFirstSet, KeyVal.isLoc]

theorem framesP_scl_atFirstSet (pos : Vec3) (cf : Int) :
    framesP KeyVal.isScl (atFirstSet pos cf) = [cf] := by
  simp [framesP, atFirstSet, KeyVal.isScl]

theorem framesP_loc_atHold (pos : Vec3) (cf : Int) :
    framesP KeyVal.isLoc (atHold pos cf) = [cf] := by
  simp [framesP, atHold, KeyVal.isLoc]

theorem framesP_scl_atHold (pos : Vec3) (cf : Int) :
    framesP KeyVal.isScl (atHold pos cf) = [cf] := by
  simp [framesP, atHold, KeyVal.isScl]

theorem framesP_loc_atDepart (cf : Int) :
    framesP KeyVal.isLoc (atDepart cf) = [] := by
  simp [framesP, atDepart, KeyVal.isLoc]

theorem framesP_scl_atDepart (cf : Int) :
    framesP KeyVal.isScl (atDepart cf) = [cf] := by
  simp [framesP, atDepart, KeyVal.isScl]

theorem framesP_nil (p : KeyVal → Bool) : framesP p [] = [] := rfl

theorem pairwise_lit1 (a : Int) : ([a] : List Int).Pairwise (· < ·) := by
  simp only [List.pairwise_cons, List.not_mem_nil, false_implies,
    implies_true, List.Pairwise.nil, and_true]

theorem pairwise_lit2 {a b : Int} (h1 : a < b) :
    ([a, b] : List Int).Pairwise (· < ·) := by
  simp only [List.pairwise_cons, List.mem_cons, List.mem_singleton,
    List.not_mem_nil, forall_eq, forall_eq_or_imp, false_implies,
    implies_true, false_or, or_false, and_true, true_and,
    List.Pairwise.nil, List.pairwise_singleton]
  omega

theorem pairwise_lit3 {a b c : Int} (h1 : a < b) (h2 : b < c) :
    ([a, b, c] : List Int).Pairwise (· < ·) := by
  simp only [List.pairwise_cons, List.mem_cons, List.mem_singleton,
    List.not_mem_nil, forall_eq, forall_eq_or_imp, false_implies,
    implies_true, false_or, or_false, and_true, true_and,
    List.Pairwise.nil, List.pairwise_singleton]
  omega

theorem pairwise_lit4 {a b c d : Int} (h1 : a < b) (h2 : b < c)
    (h3 : c < d) : ([a, b, c, d] : List Int).Pairwise (· < ·) := by
  simp only [List.pairwise_cons, List.mem_cons, List.mem_singleton,
    List.not_mem_nil, forall_eq, forall_eq_or_imp, false_implies,
    implies_true, false_or, or_false, and_true, true_and,
    List.Pairwise.nil, List.pairwise_singleton]
  omega

theorem forall_mem_lit1 {P : Int → Prop} {a : Int} (ha : P a) :
    ∀ x ∈ ([a] : List Int), P x := by
  simp only [List.mem_cons, List.mem_singleton, List.not_mem_nil,
    forall_eq, forall_eq_or_imp, false_implies, implies_true,
    false_or, or_false, and_true, true_and]
  exact ha

theorem forall_mem_lit2 {P : Int → Prop} {a b : Int} (ha : P a)
    (hb : P b) : ∀ x ∈ ([a, b] : List Int), P x := by
  simp only [List.mem_cons, List.mem_singleton, List.not_mem_nil,
    forall_eq, forall_eq_or_imp, false_implies, implies_true,
    false_or, or_false, and_true, true_and]
  exact ⟨ha, hb⟩

theorem forall_mem_lit3 {P : Int → Prop} {a b c : Int} (ha : P a)
    (hb : P b) (hc : P c) : ∀ x ∈ ([a, b, c] : List Int), P x := by
  simp only [List.mem_cons, List.mem_singleton, List.not_mem_nil,
    forall_eq, forall_eq_or_imp, false_implies, implies_true,
    false_or, or_false, and_true, true_and]
  exact ⟨ha, hb, hc⟩

theorem forall_mem_lit4 {P : Int → Prop} {a b c d : Int} (ha : P a)
    (hb : P b) (hc : P c) (hd : P d) :
    ∀ x ∈ ([a, b, c, d] : List Int), P x := by
  simp only [List.mem_cons, List.mem_singleton, List.not_mem_nil,
    forall_eq, forall_eq_or_imp, false_implies, implies_true,
    false_or, or_false, and_true, true_and]
  exact ⟨ha, hb, hc, hd⟩

/-- Location keyframes of `animate_transaction` are strictly increasing
and bounded below by the starting frame. -/
theorem atRun_loc (wps : List Vec3) : ∀ (waits : List Int) (first : Bool)
    (cf : Int),
    (framesP KeyVal.isLoc (atRun wps waits first cf)).Pairwise (· < ·)
    ∧ ∀ f ∈ framesP KeyVal.isLoc (atRun wps waits first cf), cf ≤ f := by
  have hs : squashAdv = 3 := by decide
  have ht : settleAdv = 4 := by decide
  induction wps with
  | nil => intro waits first cf; simp [atRun, framesP]
  | cons pos rest ih =>
    intro waits first cf
    simp only [atRun]
    split_ifs <;>
      simp only [framesP_append, framesP_loc_atArrive, framesP_loc_atFirstSet,
        framesP_loc_atHold, framesP_loc_atDepart, framesP_nil,
        List.cons_append, List.nil_append]
    · exact mono_glue [cf, cf + waits.headD 0] _ cf
        (cf + waits.headD 0 + 18) (by omega)
        (pairwise_lit2 (by omega))
        (forall_mem_lit2 (by omega) (by omega))
        (forall_mem_lit2 (by omega) (by omega))
        (ih waits.tail false _).1 (ih waits.tail false _).2
    · exact mono_glue [cf, cf + waits.headD 0] _ cf
        (cf + waits.headD 0 + 3 + 18) (by omega)
        (pairwise_lit2 (by omega))
        (forall_mem_lit2 (by omega) (by omega))
        (forall_mem_lit2 (by omega) (by omega))
        (ih waits.tail false _).1 (ih waits.tail false _).2
    · exact mono_glue [cf] _ cf (cf + 18) (by omega)
        (pairwise_lit1 cf)
        (forall_mem_lit1 (by omega))
        (forall_mem_lit1 (by omega))
        (ih waits.tail false _).1 (ih waits.tail false _).2
    · exact mono_glue [cf] _ cf (cf + 3 + 18) (by omega)
        (pairwise_lit1 cf)
        (forall_mem_lit1 (by omega))
        (forall_mem_lit1 (by omega))
        (ih waits.tail false _).1 (ih waits.tail false _).2
    · exact mono_glue [cf, cf + squashAdv, cf + squashAdv + settleAdv,
          cf + squashAdv + settleAdv + waits.headD 0] _ cf
        (cf + squashAdv + settleAdv + waits.headD 0 + 18) (by omega)
        (pairwise_lit4 (by omega) (by omega) (by omega))
        (forall_mem_lit4 (by omega) (by omega) (by omega) (by omega))
        (forall_mem_lit4 (by omega) (by omega) (by omega) (by omega))
        (ih waits.tail false _).1 (ih waits.tail false _).2
    · exact mono_glue [cf, cf + squashAdv, cf + squashAdv + settleAdv,
          cf + squashAdv + settleAdv + waits.headD 0] _ cf
        (cf + squashAdv + settleAdv + waits.headD 0 + 3 + 18) (by omega)
        (pairwise_lit4 (by omega) (by omega) (by omega))
        (forall_mem_lit4 (by omega) (by omega) (by omega) (by omega))
        (forall_mem_lit4 (by omega) (by omega) (by omega) (by omega))
        (ih waits.tail false _).1 (ih waits.tail false _).2
    · exact mono_glue [cf, cf + squashAdv, cf + squashAdv + settleAdv] _ cf
        (cf + squashAdv + settleAdv + 18) (by omega)
        (pairwise_lit3 (by omega) (by omega))
        (forall_mem_lit3 (by omega) (by omega) (by omega))
        (forall_mem_lit3 (by omega) (by omega) (by omega))
        (ih waits.tail false _).1 (ih waits.tail false _).2
    · exact mono_glue [cf, cf + squashAdv, cf + squashAdv + settleAdv] _ cf
        (cf + squashAdv + settleAdv + 3 + 18) (by omega)
        (pairwise_lit3 (by omega) (by omega))
        (forall_mem_lit3 (by omega) (by omega) (by omega))
        (forall_mem_lit3 (by omega) (by omega) (by omega))
        (ih waits.tail false _).1 (ih waits.tail false _).2

theorem pairwise_lit5 {a b c d e : Int} (h1 : a < b) (h2 : b < c)
    (h3 : c < d) (h4 : d < e) :
    ([a, b, c, d, e] : List Int).Pairwise (· < ·) := by
  simp only [List.pairwise_cons, List.mem_cons, List.mem_singleton,
    List.not_mem_nil, forall_eq, forall_eq_or_imp, false_implies,
    implies_true, false_or, or_false, and_true, true_and,
    List.Pairwise.nil, List.pairwise_singleton]
  omega

theorem forall_mem_lit5 {P : Int → Prop} {a b c d e : Int} (ha : P a)
    (hb : P b) (hc : P c) (hd : P d) (he : P e) :
    ∀ x ∈ ([a, b, c, d, e] : List Int), P x := by
  simp only [List.mem_cons, List.mem_singleton, List.not_mem_nil,
    forall_eq, forall_eq_or_imp, false_implies, implies_true,
    false_or, or_false, and_true, true_and]
  exact ⟨ha, hb, hc, hd, he⟩

/-- Scale keyframes of `animate_transaction` are strictly increasing
and bounded below by the starting frame. -/
theorem atRun_scl (wps : List Vec3) : ∀ (waits : List Int) (first : Bool)
    (cf : Int),
    (framesP KeyVal.isScl (atRun wps waits first cf)).Pairwise (· < ·)
    ∧ ∀ f ∈ framesP KeyVal.isScl (atRun wps waits first cf), cf ≤ f := by
  have hs : squashAdv = 3 := by decide
  have ht : settleAdv = 4 := by decide
  induction wps with
  | nil => intro waits first cf; simp [atRun, framesP]
  | cons pos rest ih =>
    intro waits first cf
    simp only [atRun]
    split_ifs <;>
      simp only [framesP_append, framesP_scl_atArrive, framesP_scl_atFirstSet,
        framesP_scl_atHold, framesP_scl_atDepart, framesP_nil,
        List.cons_append, List.nil_append]
    · exact mono_glue [cf, cf + waits.headD 0] _ cf
        (cf + waits.headD 0 + 18) (by omega)
        (pairwise_lit2 (by omega))
        (forall_mem_lit2 (by omega) (by omega))
        (forall_mem_lit2 (by omega) (by omega))
        (ih waits.tail false _).1 (ih waits.tail false _).2
    · exact mono_glue [cf, cf + waits.headD 0, cf + waits.headD 0 + 3] _ cf
        (cf + waits.headD 0 + 3 + 18) (by omega)
        (pairwise_lit3 (by omega) (by omega))
        (forall_mem_lit3 (by omega) (by omega) (by omega))
        (forall_mem_lit3 (by omega) (by omega) (by omega))
        (ih waits.tail false _).1 (ih waits.tail false _).2
    · exact mono_glue [cf] _ cf (cf + 18) (by omega)
        (pairwise_lit1 cf)
        (forall_mem_lit1 (by omega))
        (forall_mem_lit1 (by omega))
        (ih waits.tail false _).1 (ih waits.tail false _).2
    · exact mono_glue [cf, cf + 3] _ cf (cf + 3 + 18) (by omega)
        (pairwise_lit2 (by omega))
        (forall_mem_lit2 (by omega) (by omega))
        (forall_mem_lit2 (by omega) (by omega))
        (ih waits.tail false _).1 (ih waits.tail false _).2
    · exact mono_glue [cf, cf + squashAdv, cf + squashAdv + settleAdv,
          cf + squashAdv + settleAdv + waits.headD 0] _ cf
        (cf + squashAdv + settleAdv + waits.headD 0 + 18) (by omega)
        (pairwise_lit4 (by omega) (by omega) (by omega))
        (forall_mem_lit4 (by omega) (by omega) (by omega) (by omega))
        (forall_mem_lit4 (by omega) (by omega) (by omega) (by omega))
        (ih waits.tail false _).1 (ih waits.tail false _).2
    · exact mono_glue [cf, cf + squashAdv, cf + squashAdv + settleAdv,
          cf + squashAdv + settleAdv + waits.headD 0,
          cf + squashAdv + settleAdv + waits.headD 0 + 3] _ cf
        (cf + squashAdv + settleAdv + waits.headD 0 + 3 + 18) (by omega)
        (pairwise_lit5 (by omega) (by omega) (by omega) (by omega))
        (forall_mem_lit5 (by omega) (by omega) (by omega) (by omega)
          (by omega))
        (forall_mem_lit5 (by omega) (by omega) (by omega) (by omega)
          (by omega))
        (ih waits.tail false _).1 (ih waits.tail false _).2
    · exact mono_glue [cf, cf + squashAdv, cf + squashAdv + settleAdv] _ cf
        (cf + squashAdv + settleAdv + 18) (by omega)
        (pairwise_lit3 (by omega) (by omega))
        (forall_mem_lit3 (by omega) (by omega) (by omega))
        (forall_mem_lit3 (by omega) (by omega) (by omega))
        (ih waits.tail false _).1 (ih waits.tail false _).2
    · exact mono_glue [cf, cf + squashAdv, cf + squashAdv + settleAdv,
          cf + squashAdv + settleAdv + 3] _ cf
        (cf + squashAdv + settleAdv + 3 + 18) (by omega)
        (pairwise_lit4 (by omega) (by omega) (by omega))
        (forall_mem_lit4 (by omega) (by omega) (by omega) (by omega))
        (forall_mem_lit4 (by omega) (by omega) (by omega) (by omega))
        (ih waits.tail false _).1 (ih waits.tail false _).2

theorem framesP_loc_hybridArrive (pos : Vec3) (u : Nat → Rat) (t : Nat)
    (cf : Int) : framesP KeyVal.isLoc (hybridArrive pos u t cf) = [cf] := by
  simp [framesP, hybridArrive, KeyVal.isLoc]

theorem framesP_kin_hybridArrive (pos : Vec3) (u : Nat → Rat) (t : Nat)
    (cf : Int) :
    framesP KeyVal.isKin (hybridArrive pos u t cf) = [cf, cf + 2] := by
  simp [framesP, hybridArrive, KeyVal.isKin]

theorem framesP_loc_departBlock (pos nxt : Vec3) (cf : Int) :
    framesP KeyVal.isLoc (departBlock pos nxt cf)
      = [cf, cf + 8, cf + 8 + 9] := by
  simp [framesP, departBlock, KeyVal.isLoc]

theorem framesP_kin_departBlock (pos nxt : Vec3) (cf : Int) :
    framesP KeyVal.isKin (departBlock pos nxt cf) = [cf] := by
  simp [framesP, departBlock, KeyVal.isKin]

theorem framesP_loc_terminalBlock (pos : Vec3) (cf : Int) :
    framesP KeyVal.isLoc (terminalBlock pos cf) = [cf, cf + 15] := by
  simp [framesP, terminalBlock, KeyVal.isLoc]

theorem framesP_kin_terminalBlock (pos : Vec3) (cf : Int) :
    framesP KeyVal.isKin (terminalBlock pos cf) = [cf] := by
  simp [framesP, terminalBlock, KeyVal.isKin]

theorem headD_pos {pf : List Int} (hp : ∀ x ∈ pf, 0 < x) :
    0 < pf.headD 50 := by
  cases pf with
  | nil => decide
  | cons a r => simpa using hp a (List.mem_cons_self a r)

/-- Location keyframes of the hybrid stop loop are strictly increasing
and bounded below by the starting frame, provided every configured
physics dwell is positive. -/
theorem hybridFlat_loc (ps : List Vec3) : ∀ (pf : List Int)
    (u : Nat → Rat) (t : Nat) (cf : Int), (∀ x ∈ pf, 0 < x) →
    (framesP KeyVal.isLoc (hybridBlocks ps pf u t cf).flatten).Pairwise (· < ·)
    ∧ ∀ f ∈ framesP KeyVal.isLoc (hybridBlocks ps pf u t cf).flatten,
        cf ≤ f := by
  induction ps with
  | nil => intro pf u t cf hp; simp [hybridBlocks, framesP]
  | cons pos rest ih =>
    intro pf u t cf hp
    have hpt := headD_pos hp
    have hp' : ∀ x ∈ pf.tail, 0 < x :=
      fun x hx => hp x (List.mem_of_mem_tail hx)
    simp only [hybridBlocks, List.flatten_cons]
    rcases rest with _ | ⟨r2, rr⟩
    · simp only [List.head?_nil, hybridVisit, hybridBlocks,
        List.flatten_nil, List.append_nil, framesP_append,
        framesP_loc_hybridArrive, framesP_loc_terminalBlock,
        List.cons_append, List.nil_append]
      exact ⟨pairwise_lit3 (by omega) (by omega),
        forall_mem_lit3 (by omega) (by omega) (by omega)⟩
    · simp only [List.head?_cons, hybridVisit, framesP_append,
        framesP_loc_hybridArrive, framesP_loc_departBlock,
        List.cons_append, List.nil_append, List.append_assoc]
      exact mono_glue [cf, cf + 2 + pf.headD 50, cf + 2 + pf.headD 50 + 8,
          cf + 2 + pf.headD 50 + 8 + 9] _ cf
        (cf + 2 + pf.headD 50 + 8 + 9 + 9) (by omega)
        (pairwise_lit4 (by omega) (by omega) (by omega))
        (forall_mem_lit4 (by omega) (by omega) (by omega) (by omega))
        (forall_mem_lit4 (by omega) (by omega) (by omega) (by omega))
        (ih pf.tail u (t + 2) _ hp').1 (ih pf.tail u (t + 2) _ hp').2

/-- Kinematic keyframes of the hybrid stop loop are strictly increasing
and bounded below by the starting frame, provided every configured
physics dwell is positive. -/
theorem hybridFlat_kin (ps : List Vec3) : ∀ (pf : List Int)
    (u : Nat → Rat) (t : Nat) (cf : Int), (∀ x ∈ pf, 0 < x) →
    (framesP KeyVal.isKin (hybridBlocks ps pf u t cf).flatten).Pairwise (· < ·)
    ∧ ∀ f ∈ framesP KeyVal.isKin (hybridBlocks ps pf u t cf).flatten,
        cf ≤ f := by
  induction ps with
  | nil => intro pf u t cf hp; simp [hybridBlocks, framesP]
  | cons pos rest ih =>
    intro pf u t cf hp
    have hpt := headD_pos hp
    have hp' : ∀ x ∈ pf.tail, 0 < x :=
      fun x hx => hp x (List.mem_of_mem_tail hx)
    simp only [hybridBlocks, List.flatten_cons]
    rcases rest with _ | ⟨r2, rr⟩
    · simp only [List.head?_nil, hybridVisit, hybridBlocks,
        List.flatten_nil, List.append_nil, framesP_append,
        framesP_kin_hybridArrive, framesP_kin_terminalBlock,
        List.cons_append, List.nil_append]
      exact ⟨pairwise_lit3 (by omega) (by omega),
        forall_mem_lit3 (by omega) (by omega) (by omega)⟩
    · simp only [List.head?_cons, hybridVisit, framesP_append,
        framesP_kin_hybridArrive, framesP_kin_departBlock,
        List.cons_append, List.nil_append, List.append_assoc]
      exact mono_glue [cf, cf + 2, cf + 2 + pf.headD 50] _ cf
        (cf + 2 + pf.headD 50 + 8 + 9 + 9) (by omega)
        (pairwise_lit3 (by omega) (by omega))
        (forall_mem_lit3 (by omega) (by omega) (by omega))
        (forall_mem_lit3 (by omega) (by omega) (by omega))
        (ih pf.tail u (t + 2) _ hp').1 (ih pf.tail u (t + 2) _ hp').2

/-- The hybrid stop loop never keyframes the hide flags. -/
theorem hybridFlat_hide (ps : List Vec3) : ∀ (pf : List Int)
    (u : Nat → Rat) (t : Nat) (cf : Int),
    framesP KeyVal.isHideR (hybridBlocks ps pf u t cf).flatten = []
    ∧ framesP KeyVal.isHideV (hybridBlocks ps pf u t cf).flatten = [] := by
  induction ps with
  | nil => intro pf u t cf; simp [hybridBlocks, framesP]
  | cons pos rest ih =>
    intro pf u t cf
    simp only [hybridBlocks, List.flatten_cons, framesP_append]
    obtain ⟨ih1, ih2⟩ := ih pf.tail u (t + 2) (cf + 2 + pf.headD 50 + 8 + 9 + 9)
    rw [ih1, ih2]
    rcases rest with _ | ⟨r2, rr⟩ <;>
      simp [hybridVisit, hybridArrive, departBlock, terminalBlock,
        framesP, KeyVal.isHideR, KeyVal.isHideV]

theorem framesP_cons_loc (f : Int) (v : Vec3) (es : List KeyEvent) :
    framesP KeyVal.isLoc (⟨f, .loc v⟩ :: es)
      = f :: framesP KeyVal.isLoc es := by
  simp [framesP, KeyVal.isLoc]

/-- Location keyframes of `animate_ball` are strictly increasing and
bounded below by the starting frame, provided `frames_per_stop` is
positive. -/
theorem animate_ball_mono (wps : List Vec3) : ∀ (f fps : Int), 0 < fps →
    (framesP KeyVal.isLoc (animate_ball wps f fps)).Pairwise (· < ·)
    ∧ ∀ g ∈ framesP KeyVal.isLoc (animate_ball wps f fps), f ≤ g := by
  induction wps with
  | nil => intro f fps hf; simp [animate_ball, framesP]
  | cons pos rest ih =>
    intro f fps hf
    simp only [animate_ball, framesP_cons_loc]
    exact mono_glue [f] _ f (f + fps) (by omega)
      (pairwise_lit1 f)
      (forall_mem_lit1 (by omega))
      (forall_mem_lit1 (by omega))
      (ih (f + fps) fps hf).1 (ih (f + fps) fps hf).2

/-- Claim C2: for every entity, keyframes are emitted in strictly
increasing frame order on each animated property, under the
precondition that all configured wait/dwell/travel frame counts are
positive: this holds for `animate_transaction` (location and scale),
for `create_hybrid_transaction` (location, kinematic and both hide
flags), and for `animate_ball` (location). -/
theorem c2_monotonic_time
    (wps : List Vec3) (sf : Int) (waits : List Int)
    (path : List Vec3) (hsf : Int) (pf : List Int) (u : Nat → Rat)
    (bwps : List Vec3) (bsf fps : Int)
    (_hw : ∀ w ∈ waits, 0 < w) (hp : ∀ x ∈ pf, 0 < x) (hf : 0 < fps) :
    (locFrames (animate_transaction wps sf waits)).Pairwise (· < ·) ∧
    (sclFrames (animate_transaction wps sf waits)).Pairwise (· < ·) ∧
    (locFrames (create_hybrid_transaction path hsf pf u)).Pairwise (· < ·) ∧
    (kinFrames (create_hybrid_transaction path hsf pf u)).Pairwise (· < ·) ∧
    (hideRFrames (create_hybrid_transaction path hsf pf u)).Pairwise (· < ·) ∧
    (hideVFrames (create_hybrid_transaction path hsf pf u)).Pairwise (· < ·) ∧
    (locFrames (animate_ball bwps bsf fps)).Pairwise (· < ·) := by
  refine ⟨?_, ?_, ?_, ?_, ?_, ?_, ?_⟩
  · simpa [locFrames, animate_transaction] using (atRun_loc wps waits true sf).1
  · simpa [sclFrames, animate_transaction] using (atRun_scl wps waits true sf).1
  · have hpre : framesP KeyVal.isLoc (hybridPrelude hsf) = [] := by
      simp [framesP, hybridPrelude, KeyVal.isLoc]
    simp only [locFrames, create_hybrid_transaction, framesP_append, hpre,
      List.nil_append]
    exact (hybridFlat_loc path pf u 0 hsf hp).1
  · have hpre : framesP KeyVal.isKin (hybridPrelude hsf) = [] := by
      simp [framesP, hybridPrelude, KeyVal.isKin]
    simp only [kinFrames, create_hybrid_transaction, framesP_append, hpre,
      List.nil_append]
    exact (hybridFlat_kin path pf u 0 hsf hp).1
  · have hpre : framesP KeyVal.isHideR (hybridPrelude hsf)
        = [hsf - 1, hsf] := by
      simp [framesP, hybridPrelude, KeyVal.isHideR]
    simp only [hideRFrames, create_hybrid_transaction, framesP_append, hpre,
      (hybridFlat_hide path pf u 0 hsf).1, List.append_nil]
    exact pairwise_lit2 (by omega)
  · have hpre : framesP KeyVal.isHideV (hybridPrelude hsf)
        = [hsf - 1, hsf] := by
      simp [framesP, hybridPrelude, KeyVal.isHideV]
    simp only [hideVFrames, create_hybrid_transaction, framesP_append, hpre,
      (hybridFlat_hide path pf u 0 hsf).2, List.append_nil]
    exact pairwise_lit2 (by omega)
  · simpa [locFrames] using (animate_ball_mono bwps bsf fps hf).1

/-- Claim C2, witness. -/
theorem c2_monotonic_time_witness :
    (∀ w ∈ ([5] : List Int), 0 < w) ∧
    (∀ x ∈ ([10] : List Int), 0 < x) ∧
    ((0 : Int) < 40) ∧
    ((locFrames (animate_transaction [⟨0, 0, 0⟩, ⟨4, 1, 2⟩] 1 [5])).Pairwise
        (· < ·) ∧
     (sclFrames (animate_transaction [⟨0, 0, 0⟩, ⟨4, 1, 2⟩] 1 [5])).Pairwise
        (· < ·) ∧
     (locFrames (create_hybrid_transaction [⟨0, 0, 0⟩, ⟨1, 1, 1⟩] 2 [10]
        (fun _ => 0))).Pairwise (· < ·) ∧
     (kinFrames (create_hybrid_transaction [⟨0, 0, 0⟩, ⟨1, 1, 1⟩] 2 [10]
        (fun _ => 0))).Pairwise (· < ·) ∧
     (hideRFrames (create_hybrid_transaction [⟨0, 0, 0⟩, ⟨1, 1, 1⟩] 2 [10]
        (fun _ => 0))).Pairwise (· < ·) ∧
     (hideVFrames (create_hybrid_transaction [⟨0, 0, 0⟩, ⟨1, 1, 1⟩] 2 [10]
        (fun _ => 0))).Pairwise (· < ·) ∧
     (locFrames (animate_ball [⟨0, 0, 0⟩, ⟨2, 2, 2⟩] 3 40)).Pairwise
        (· < ·)) :=
  ⟨by decide, by decide, by decide,
   c2_monotonic_time [⟨0, 0, 0⟩, ⟨4, 1, 2⟩] 1 [5] [⟨0, 0, 0⟩, ⟨1, 1, 1⟩] 2
     [10] (fun _ => 0) [⟨0, 0, 0⟩, ⟨2, 2, 2⟩] 3 40
     (by decide) (by decide) (by decide)⟩

/-- Modelled from the spec: the error taxonomy of §7 for topology
construction and path assignment (the repository's source has no
topology code — its layouts and paths are hardcoded). -/
inductive ChorError where
  | configError
  | invalidPathError
deriving DecidableEq, Repr

/-- Modelled from the spec: a stage specification (§4.1): its id and
whether it is a designated entry stage. -/
structure StageSpec where
  sid : Nat
  isEntry : Bool
deriving DecidableEq, Repr

/-- Modelled from the spec: a transition specification (§3): an ordered
pair of stage ids. -/
structure TransitionSpec where
  src : Nat
  dst : Nat
deriving DecidableEq, Repr

/-- Modelled from the spec: a validated topology (§3). -/
structure Topology where
  stages : List StageSpec
  transitions : List TransitionSpec
deriving DecidableEq, Repr

def stageIds (ss : List StageSpec) : List Nat := ss.map (fun s => s.sid)

/-- A transition edge from `a` to `b` is defined. -/
def hasEdge (ts : List TransitionSpec) (a b : Nat) : Bool :=
  ts.any (fun tr => tr.src == a && tr.dst == b)

/-- Predicate `reachN ts k a b`: `b` is reachable from `a` along at most `k`
transition edges. -/
def reachN (ts : List TransitionSpec) : Nat → Nat → Nat → Bool
  | 0, a, b => a == b
  | k + 1, a, b =>
    a == b || ts.any (fun tr => tr.src == a && reachN ts k tr.dst b)

/-- Some transition references an unknown stage id. -/
def hasDangling (ss : List StageSpec) (ts : List TransitionSpec) : Bool :=
  ts.any (fun tr =>
    !(stageIds ss).contains tr.src || !(stageIds ss).contains tr.dst)

/-- The transition graph has a nonempty cycle through some stage. -/
def hasCycle (ss : List StageSpec) (ts : List TransitionSpec) : Bool :=
  (stageIds ss).any (fun s =>
    ts.any (fun tr => tr.src == s && reachN ts ss.length tr.dst s))

/-- An exit stage: a terminal stage with no outgoing transition. -/
def isExit (ts : List TransitionSpec) (s : Nat) : Bool :=
  !(ts.any (fun tr => tr.src == s))

/-- Some designated entry stage reaches some exit stage. -/
def entryToExit (ss : List StageSpec) (ts : List TransitionSpec) : Bool :=
  ss.any (fun e => e.isEntry &&
    ss.any (fun x => isExit ts x.sid && reachN ts ss.length e.sid x.sid))

/-- Modelled from the spec: `build_topology(stage_specs,
transition_specs)` of §4.1: fails with `ConfigError` iff a transition
references an unknown stage id, or the transition graph has a cycle, or
no designated entry stage reaches an exit stage. -/
def build_topology (ss : List StageSpec) (ts : List TransitionSpec) :
    Except ChorError Topology :=
  if hasDangling ss ts then .error .configError
  else if hasCycle ss ts then .error .configError
  else if !entryToExit ss ts then .error .configError
  else .ok ⟨ss, ts⟩

/-- Modelled from the spec: an assigned path (§3): presentation category
and the ordered stage-id sequence. -/
structure ChorPath where
  category : Nat
  stages : List Nat
deriving DecidableEq, Repr

/-- Every consecutive pair of the sequence is a defined transition. -/
def pathOk (ts : List TransitionSpec) : List Nat → Bool
  | a :: b :: rest => hasEdge ts a b && pathOk ts (b :: rest)
  | _ => true

/-- Modelled from the spec: `assign_path(topology, category,
requested_stage_sequence)` of §4.1: fails with `InvalidPathError` iff
some consecutive pair of the requested sequence is not a defined
transition; on success the path carries the requested sequence
unchanged — never truncated. -/
def assign_path (t : Topology) (category : Nat) (seq : List Nat) :
    Except ChorError ChorPath :=
  if pathOk t.transitions seq then .ok ⟨category, seq⟩
  else .error .invalidPathError

/-- Modelled from the spec: the fail-fast propagation policy of §7:
configuration errors are surfaced before any entity synthesis begins.
Entities are `(path_points, spawn_frame, physics_frames)` triples,
synthesised by `create_hybrid_transaction`. -/
def synthesize_pipeline (ss : List StageSpec) (ts : List TransitionSpec)
    (entities : List (List Vec3 × Int × List Int)) (u : Nat → Rat) :
    Except ChorError (List (List KeyEvent)) :=
  match build_topology ss ts with
  | .error e => .error e
  | .ok _ =>
    .ok (entities.map (fun e => create_hybrid_transaction e.1 e.2.1 e.2.2 u))

theorem hasDangling_iff (ss : List StageSpec) (ts : List TransitionSpec) :
    hasDangling ss ts = true
      ↔ ∃ tr ∈ ts, tr.src ∉ stageIds ss ∨ tr.dst ∉ stageIds ss := by
  simp [hasDangling, List.any_eq_true]

theorem pathOk_iff_chain (ts : List TransitionSpec) : ∀ (seq : List Nat),
    pathOk ts seq = true
      ↔ List.Chain' (fun a b => hasEdge ts a b = true) seq := by
  intro seq
  induction seq with
  | nil => simp [pathOk]
  | cons a rest ih =>
    cases rest with
    | nil => simp [pathOk]
    | cons b r =>
      rw [pathOk, List.chain'_cons, Bool.and_eq_true, ih]

/-- Claim C9 (spec-modelled): `build_topology` fails with `ConfigError`
iff a transition references an unknown stage id, or the transition
graph has a cycle, or no designated entry stage reaches an exit stage;
`assign_path` fails with `InvalidPathError` iff some consecutive pair
of the requested sequence is not a defined transition, and a successful
path is never truncated; and a configuration failure is surfaced before
any entity synthesis begins. -/
theorem c9_config_and_path_errors (ss : List StageSpec)
    (ts : List TransitionSpec) (t : Topology) (cat : Nat)
    (seq : List Nat) (p : ChorPath)
    (entities : List (List Vec3 × Int × List Int)) (u : Nat → Rat)
    (e : ChorError) :
    (build_topology ss ts = .error .configError ↔
      ((∃ tr ∈ ts, tr.src ∉ stageIds ss ∨ tr.dst ∉ stageIds ss)
        ∨ hasCycle ss ts = true ∨ entryToExit ss ts = false))
    ∧ (assign_path t cat seq = .error .invalidPathError ↔
        ¬ List.Chain' (fun a b => hasEdge t.transitions a b = true) seq)
    ∧ (assign_path t cat seq = .ok p → p.stages = seq)
    ∧ (build_topology ss ts = .error e →
        synthesize_pipeline ss ts entities u = .error e) := by
  refine ⟨?_, ?_, ?_, ?_⟩
  · rw [← hasDangling_iff]
    rw [build_topology]
    split_ifs with h1 h2 h3 <;>
      simp_all [Bool.not_eq_true']
  · rw [← pathOk_iff_chain]
    rw [assign_path]
    split_ifs with h1 <;> simp [h1]
  · rw [assign_path]
    split_ifs with h1
    · intro h
      cases h
      rfl
    · intro h
      cases h
  · intro h
    rw [synthesize_pipeline, h]

/-- Claim C9, witness: a topology with a dangling transition `(0, 2)`
fails fast — the pipeline surfaces `ConfigError` and synthesises no
entity — and a valid path `[0, 1]` is assigned untruncated. -/
theorem c9_config_and_path_errors_witness :
    synthesize_pipeline [⟨0, true⟩, ⟨1, false⟩] [⟨0, 2⟩]
        [([⟨0, 0, 0⟩], 1, [10])] (fun _ => 0) = .error .configError ∧
    (⟨0, [0, 1]⟩ : ChorPath).stages = [0, 1] :=
  ⟨(c9_config_and_path_errors [⟨0, true⟩, ⟨1, false⟩] [⟨0, 2⟩]
      ⟨[⟨0, true⟩, ⟨1, false⟩], [⟨0, 1⟩]⟩ 0 [0, 1] ⟨0, [0, 1]⟩
      [([⟨0, 0, 0⟩], 1, [10])] (fun _ => 0) .configError).2.2.2 rfl,
   (c9_config_and_path_errors [⟨0, true⟩, ⟨1, false⟩] [⟨0, 2⟩]
      ⟨[⟨0, true⟩, ⟨1, false⟩], [⟨0, 1⟩]⟩ 0 [0, 1] ⟨0, [0, 1]⟩
      [([⟨0, 0, 0⟩], 1, [10])] (fun _ => 0) .configError).2.2.1 rfl⟩
